import Mathlib

/-!
Verification development for the `git-utils` repository (two Python scripts:
`setup-gpg-config.py`, an interactive git GPG configuration writer, and
`install_cursor.py`, an AppImage installer).  Text content is modelled as
`List Char`; the install root directory is modelled as an association list
from entry names to entries.
-/

namespace GitUtils

/-! ### Generic list helpers -/

/-- If every element of `a` satisfies `p`, `takeWhile` passes through `a`. -/
theorem takeWhile_app_of_all {p : Char → Bool} {a : List Char} (b : List Char)
    (h : ∀ c ∈ a, p c = true) :
    (a ++ b).takeWhile p = a ++ b.takeWhile p := by
  induction a with
  | nil => simp
  | cons c rest ih =>
      have hc : p c = true := h c (by simp)
      simp [List.takeWhile, hc]
      exact ih fun d hd => h d (by simp [hd])

/-- If every element of `a` satisfies `p`, `dropWhile` passes through `a`. -/
theorem dropWhile_app_of_all {p : Char → Bool} {a : List Char} (b : List Char)
    (h : ∀ c ∈ a, p c = true) :
    (a ++ b).dropWhile p = b.dropWhile p := by
  induction a with
  | nil => simp
  | cons c rest ih =>
      have hc : p c = true := h c (by simp)
      simp [List.dropWhile, hc]
      exact ih fun d hd => h d (by simp [hd])

/-- Every element picked by `takeWhile` satisfies the predicate. -/
theorem all_of_takeWhile {p : Char → Bool} {l : List Char} :
    ∀ c ∈ l.takeWhile p, p c = true := by
  induction l with
  | nil => simp
  | cons c rest ih =>
      by_cases hc : p c = true
      · simp [List.takeWhile, hc]
        exact fun d hd => ih d hd
      · simp [List.takeWhile, Bool.of_not_eq_true hc]

/-- A nonempty left factor makes a list a prefix-wise larger list. -/
theorem pfx_length_le {l₁ l₂ : List Char} (h : l₁ <+: l₂) : l₁.length ≤ l₂.length := by
  obtain ⟨t, ht⟩ := h
  subst ht
  simp

/-- Heads of a cons-prefix agree. -/
theorem pfx_head_eq {a b : Char} {l₁ l₂ : List Char} (h : a :: l₁ <+: b :: l₂) :
    a = b := by
  obtain ⟨t, ht⟩ := h
  exact (List.cons.injEq _ _ _ _ ▸ ht).1

/-- Transitivity of the list-infix relation, constructed explicitly. -/
theorem infx_trans {l₁ l₂ l₃ : List Char} (h₁ : l₁ <:+: l₂) (h₂ : l₂ <:+: l₃) :
    l₁ <:+: l₃ := by
  obtain ⟨s, t, hst⟩ := h₁
  obtain ⟨u, v, huv⟩ := h₂
  exact ⟨u ++ s, t ++ v, by rw [← huv, ← hst]; simp [List.append_assoc]⟩

/-- Number of positions (over all indices, end included) at which `pat`
occurs as a prefix of the corresponding tail of the list. -/
def countOcc (pat : List Char) : List Char → Nat
  | [] => if pat = [] then 1 else 0
  | c :: rest => (if pat <+: c :: rest then 1 else 0) + countOcc pat rest

/-- A pattern longer than the text never occurs. -/
theorem countOcc_eq_zero_of_longer {pat l : List Char} (h : l.length < pat.length) :
    countOcc pat l = 0 := by
  induction l with
  | nil =>
      have : pat ≠ [] := by
        intro hp
        simp [hp] at h
      simp [countOcc, this]
  | cons c rest ih =>
      have h1 : ¬ (pat <+: c :: rest) := by
        intro hp
        exact absurd (pfx_length_le hp) (by omega)
      have h2 : rest.length < pat.length := by
        simp at h
        omega
      simp [countOcc, h1, ih h2]

/-! ### Config writer (`setup-gpg-config.py`) -/

/-- The conditional-include block built by `add_custom_config_into_main`:
`f'[includeIf "gitdir:\x7bfolder\x7d/"]\n\tpath = \x7bcustom_config_path\x7d\n'`. -/
def include_block (folder custom_config_path : List Char) : List Char :=
  "[includeIf \"gitdir:".toList ++ folder ++ "/\"]\n\tpath = ".toList ++
    custom_config_path ++ "\n".toList

/-- `add_custom_config_into_main`: `existing` is the current content of the
global `.gitconfig` (a missing file is read as empty content).  If the block
is not an exact substring of `existing`, append `"\n" + include_block`;
otherwise leave the file unchanged.  The boolean records whether the file
was appended to. -/
def add_custom_config_into_main (existing folder custom_config_path : List Char) :
    List Char × Bool :=
  let block := include_block folder custom_config_path
  if block <:+: existing then (existing, false)
  else (existing ++ '\n' :: block, true)

/-- `"\n".join(lines)` on character lists. -/
def joinLines : List (List Char) → List Char
  | [] => []
  | [l] => l
  | l :: ls => l ++ '\n' :: joinLines ls

/-- The `config_lines` list built by `build_custom_config`.  `name` and
`email` model the prompt results; the empty list is Python-falsy, so it
matches `if name:` / `if email:` in the source. -/
def config_lines (key_id name email : List Char) : List (List Char) :=
  ["[user]".toList, "\tsigningkey = ".toList ++ key_id]
    ++ (if name ≠ [] then ["\tname = ".toList ++ name] else [])
    ++ (if email ≠ [] then ["\temail = ".toList ++ email] else [])
    ++ ["[commit]".toList, "\tgpgsign = true".toList]

/-- `build_custom_config`: content of the per-scope fragment file,
`"\n".join(config_lines) + "\n"`. -/
def build_custom_config (key_id name email : List Char) : List Char :=
  joinLines (config_lines key_id name email) ++ "\n".toList

/-- Python `str.strip()` whitespace set (ASCII part). -/
def pySpace (c : Char) : Bool :=
  c = ' ' || c = '\t' || c = '\n' || c = '\r' || c = '\x0b' || c = '\x0c'

/-- Python `str.strip()`: drop whitespace from both ends. -/
def pyStrip (l : List Char) : List Char :=
  ((l.dropWhile pySpace).reverse.dropWhile pySpace).reverse

/-- `ConfigCommand.prompt`: read responses in order; return the first
stripped value that is accepted (`if val or optional: return val`).
`none` models the loop never terminating on the given response list. -/
def prompt (opt : Bool) : List (List Char) → Option (List Char)
  | [] => none
  | r :: rs =>
      let val := pyStrip r
      if val ≠ [] ∨ opt = true then some val else prompt opt rs

/-- The include block starts with the character `[`. -/
theorem include_block_head (folder path : List Char) :
    ∃ t, include_block folder path = '[' :: t := by
  refine ⟨"includeIf \"gitdir:".toList ++ folder ++ "/\"]\n\tpath = ".toList ++
    path ++ "\n".toList, ?_⟩
  simp [include_block]

/-- The include block is not a substring of the empty content. -/
theorem include_block_not_in_empty (folder path : List Char) :
    ¬ (include_block folder path <:+: ([] : List Char)) := by
  obtain ⟨t, ht⟩ := include_block_head folder path
  intro h
  obtain ⟨s, u, hsu⟩ := h
  rw [ht] at hsu
  simp [List.append_eq_nil] at hsu

/-- A member of a line list is a substring of the joined text. -/
theorem mem_joinLines_infx {l : List Char} : ∀ {ls : List (List Char)}, l ∈ ls →
    l <:+: joinLines ls := by
  intro ls
  induction ls with
  | nil => intro h; simp at h
  | cons a ls ih =>
      intro h
      cases ls with
      | nil =>
          simp at h
          subst h
          exact ⟨[], [], by simp [joinLines]⟩
      | cons b ls2 =>
          rcases List.mem_cons.mp h with h | h
          · subst h
            exact ⟨[], '\n' :: joinLines (b :: ls2), by simp [joinLines]⟩
          · exact infx_trans (ih h)
              ⟨a ++ ['\n'], [], by simp [joinLines, List.append_assoc]⟩

/-- The pattern occurs in itself exactly once (cons shape given). -/
theorem countOcc_self {pat : List Char} (c : Char) (t : List Char) (h : pat = c :: t) :
    countOcc pat pat = 1 := by
  have hself : pat <+: pat := ⟨[], by simp⟩
  have hz : countOcc pat t = 0 := countOcc_eq_zero_of_longer (by rw [h]; simp)
  calc countOcc pat pat = countOcc pat (c :: t) := by rw [← h]
    _ = (if pat <+: c :: t then 1 else 0) + countOcc pat t := by simp [countOcc]
    _ = 1 := by rw [← h, if_pos hself, hz]

/-- The `signingkey` line is among the fragment's lines. -/
theorem signingkey_mem_config_lines (key name email : List Char) :
    "\tsigningkey = ".toList ++ key ∈ config_lines key name email := by
  simp [config_lines]

/-- The `gpgsign` directive is among the fragment's lines. -/
theorem gpgsign_mem_config_lines (key name email : List Char) :
    "\tgpgsign = true".toList ∈ config_lines key name email := by
  by_cases h1 : name = [] <;> by_cases h2 : email = [] <;>
    simp [config_lines, h1, h2]

/-- Claim C1: if the global configuration content already contains the exact
conditional-include block for a directory, `add_custom_config_into_main`
leaves the content unchanged (and reports no append); consequently running
the append step twice with the same inputs gives the same content as
running it once. -/
theorem c1_add_custom_config_idempotent (existing folder path : List Char) :
    (include_block folder path <:+: existing →
      add_custom_config_into_main existing folder path = (existing, false))
    ∧ (add_custom_config_into_main
        (add_custom_config_into_main existing folder path).1 folder path).1
      = (add_custom_config_into_main existing folder path).1 := by
  constructor
  · intro h
    simp [add_custom_config_into_main, h]
  · by_cases h : include_block folder path <:+: existing
    · simp [add_custom_config_into_main, h]
    · have h2 : include_block folder path <:+:
          existing ++ '\n' :: include_block folder path :=
        ⟨existing ++ ['\n'], [], by simp [List.append_assoc]⟩
      simp [add_custom_config_into_main, h, h2]

/-- Witness for C1 at a concrete configuration content. -/
theorem c1_add_custom_config_idempotent_witness :
    add_custom_config_into_main
      (include_block "/home/u/repos".toList "/home/u/.gitconfig-repos".toList)
      "/home/u/repos".toList "/home/u/.gitconfig-repos".toList
      = (include_block "/home/u/repos".toList "/home/u/.gitconfig-repos".toList,
         false) :=
  (c1_add_custom_config_idempotent _ _ _).1 ⟨[], [], by simp⟩

/-- Claim C4: against empty global configuration content the append step
appends exactly one conditional-include block, preceded by a leading blank
line (the result is literally a newline followed by the block, and the block
occurs exactly once in it); and the fragment content built by
`build_custom_config` contains the supplied signing key and the fixed
commit-signing directive. -/
theorem c4_first_run_appends_one_block (folder path key name email : List Char) :
    add_custom_config_into_main [] folder path
      = ('\n' :: include_block folder path, true)
    ∧ countOcc (include_block folder path) ('\n' :: include_block folder path) = 1
    ∧ key <:+: build_custom_config key name email
    ∧ "\tgpgsign = true".toList <:+: build_custom_config key name email := by
  obtain ⟨t, ht⟩ := include_block_head folder path
  refine ⟨?_, ?_, ?_, ?_⟩
  · have hne : include_block folder path ≠ [] := by rw [ht]; simp
    simp [add_custom_config_into_main, include_block_not_in_empty, hne]
  · have hne : ¬ (include_block folder path <+: '\n' :: include_block folder path) := by
      rw [ht]
      intro h
      have := pfx_head_eq h
      simp at this
    calc countOcc (include_block folder path) ('\n' :: include_block folder path)
        = (if include_block folder path <+: '\n' :: include_block folder path
            then 1 else 0)
          + countOcc (include_block folder path) (include_block folder path) := by
          simp [countOcc]
      _ = 1 := by rw [if_neg hne, countOcc_self '[' t ht]
  · have h1 : key <:+: "\tsigningkey = ".toList ++ key :=
      ⟨"\tsigningkey = ".toList, [], by simp⟩
    have h2 := mem_joinLines_infx (signingkey_mem_config_lines key name email)
    exact infx_trans (infx_trans h1 h2)
      ⟨[], "\n".toList, by simp [build_custom_config]⟩
  · have h2 := mem_joinLines_infx (gpgsign_mem_config_lines key name email)
    exact infx_trans h2 ⟨[], "\n".toList, by simp [build_custom_config]⟩

/-- Claim C8: a required prompt returns the first response whose stripped
value is nonempty, skipping empty ones, and never returns an empty string;
an optional prompt returns the stripped value of the very first response. -/
theorem c8_prompt_first_nonempty :
    (∀ rs : List (List Char),
      prompt false rs = (rs.map pyStrip).find? (fun v => !v.isEmpty))
    ∧ (∀ (rs : List (List Char)) (v : List Char),
        prompt false rs = some v → v ≠ [])
    ∧ (∀ (r : List Char) (rs : List (List Char)),
        prompt true (r :: rs) = some (pyStrip r)) := by
  have hfind : ∀ rs : List (List Char),
      prompt false rs = (rs.map pyStrip).find? (fun v => !v.isEmpty) := by
    intro rs
    induction rs with
    | nil => simp [prompt]
    | cons r rs ih =>
        by_cases h : pyStrip r = []
        · simp [prompt, h, List.find?, ih]
        · have hb : (pyStrip r).isEmpty = false := by
            cases hpr : pyStrip r with
            | nil => exact absurd hpr h
            | cons c cs => rfl
          simp [prompt, h, List.find?, hb]
  refine ⟨hfind, ?_, ?_⟩
  · intro rs v h
    rw [hfind rs] at h
    have := List.find?_some h
    simpa using this
  · intro r rs
    simp [prompt]

/-- Witness for C8: on the responses `"  "` then `" a "` the required
prompt skips the blank response and returns the nonempty stripped value. -/
theorem c8_prompt_first_nonempty_witness : (['a'] : List Char) ≠ [] :=
  c8_prompt_first_nonempty.2.1 ["  ".toList, " a ".toList] ['a'] (by decide)

/-! ### Installer (`install_cursor.py`): version derivation

`derive_version` runs `re.search(r"(\d+\.\d+\.\d+)", name)` and returns the
matched text, or `"unknown"` when there is no match.  For this pattern,
greedy matching with backtracking at a fixed start position is equivalent
to: a maximal nonempty digit run, a literal dot, a maximal nonempty digit
run, a literal dot, then a maximal nonempty digit run (a shorter choice for
the first two runs always leaves a digit in front of the required dot, so
backtracking never helps).  `re.search` tries start positions left to
right. -/

/-- Attempted match of `\d+\.\d+\.\d+` anchored at the head of `l`:
the maximal digit run, a literal dot, the maximal digit run, a literal
dot, the maximal digit run. -/
def matchAt (l : List Char) : Option (List Char) :=
  let d1 := l.takeWhile Char.isDigit
  let r1 := l.dropWhile Char.isDigit
  let d2 := (r1.drop 1).takeWhile Char.isDigit
  let r2 := (r1.drop 1).dropWhile Char.isDigit
  let d3 := (r2.drop 1).takeWhile Char.isDigit
  if d1.isEmpty then none
  else if r1.take 1 ≠ ['.'] then none
  else if d2.isEmpty then none
  else if r2.take 1 ≠ ['.'] then none
  else if d3.isEmpty then none
  else some (d1 ++ '.' :: (d2 ++ '.' :: d3))

/-- `re.search`: try `matchAt` at every start position, left to right. -/
def search : List Char → Option (List Char)
  | [] => none
  | c :: rest =>
      match matchAt (c :: rest) with
      | some m => some m
      | none => search rest

/-- `derive_version`: the matched version text, else `"unknown"`. -/
def derive_version (appimage_name : List Char) : List Char :=
  match search appimage_name with
  | some m => m
  | none => "unknown".toList

/-- A dotted three-part version string: `matchAt` consumes it entirely. -/
def isVersionText (v : List Char) : Prop := matchAt v = some v

/-- The filename contains a dotted three-part version number. -/
def hasVersionText (name : List Char) : Prop :=
  ∃ v, isVersionText v ∧ v <:+: name

instance (v : List Char) : Decidable (isVersionText v) := by
  unfold isVersionText
  infer_instance

/-! ### Installer: filesystem model

The install root is an association list from entry names to entries.  A
directory entry carries the (flat) file tree that was copied into it; a
symlink entry carries the literal target text it was created with
(`current.symlink_to(target_dir.name)` stores the bare version name, i.e. a
relative symlink). -/

/-- One entry of the install root. -/
inductive Entry where
  | dir (tree : List (List Char × List Char)) : Entry
  | file (content : List Char) : Entry
  | symlink (target : List Char) : Entry
deriving DecidableEq, Repr

/-- The install root: an association list of named entries. -/
abbrev FS := List (List Char × Entry)

/-- Look an entry up by name. -/
def lookupFS : FS → List Char → Option Entry
  | [], _ => none
  | (k, e) :: rest, n => if k = n then some e else lookupFS rest n

/-- Remove every entry with the given name. -/
def removeFS (n : List Char) (fs : FS) : FS :=
  fs.filter fun p => decide (p.1 ≠ n)

/-- Create or replace the entry with the given name. -/
def setFS (n : List Char) (e : Entry) (fs : FS) : FS :=
  removeFS n fs ++ [(n, e)]

theorem lookupFS_append (a b : FS) (n : List Char) :
    lookupFS (a ++ b) n =
      match lookupFS a n with
      | some e => some e
      | none => lookupFS b n := by
  induction a with
  | nil => simp [lookupFS]
  | cons p rest ih =>
      by_cases h : p.1 = n
      · simp [lookupFS, h]
      · simp [lookupFS, h, ih]

theorem lookupFS_removeFS_self (fs : FS) (n : List Char) :
    lookupFS (removeFS n fs) n = none := by
  induction fs with
  | nil => simp [removeFS, lookupFS]
  | cons p rest ih =>
      by_cases h : p.1 = n
      · simpa [removeFS, h] using ih
      · simpa [removeFS, lookupFS, h] using ih

theorem lookupFS_removeFS_ne (fs : FS) {n m : List Char} (h : m ≠ n) :
    lookupFS (removeFS n fs) m = lookupFS fs m := by
  have h' : ¬ n = m := fun hc => h hc.symm
  induction fs with
  | nil => simp [removeFS]
  | cons p rest ih =>
      by_cases hp : p.1 = n
      · have hpm : ¬ p.1 = m := by rw [hp]; exact h'
        simpa [removeFS, List.filter_cons, lookupFS, hp, hpm, h, h'] using ih
      · by_cases hm : p.1 = m
        · simp [removeFS, List.filter_cons, lookupFS, hp, hm, h, h']
        · simpa [removeFS, List.filter_cons, lookupFS, hp, hm, h, h'] using ih

theorem lookupFS_setFS_self (fs : FS) (n : List Char) (e : Entry) :
    lookupFS (setFS n e fs) n = some e := by
  rw [setFS, lookupFS_append, lookupFS_removeFS_self]
  simp [lookupFS]

theorem lookupFS_setFS_ne (fs : FS) {n m : List Char} (e : Entry) (h : m ≠ n) :
    lookupFS (setFS n e fs) m = lookupFS fs m := by
  rw [setFS, lookupFS_append, lookupFS_removeFS_ne fs h]
  have h' : ¬ n = m := fun hc => h hc.symm
  cases hl : lookupFS fs m with
  | some e2 => simp
  | none => simp [lookupFS, h']

/-! ### Installer: operations on the install root -/

/-- A flat extracted tree (`squashfs-root` contents). -/
abbrev Tree := List (List Char × List Char)

/-- `Path.unlink()` semantics: removing a regular file or a symlink
succeeds; unlinking a directory raises `IsADirectoryError`; a missing
entry raises `FileNotFoundError`. -/
def unlink (n : List Char) (fs : FS) : Except (List Char) FS :=
  match lookupFS fs n with
  | none => .error "FileNotFoundError".toList
  | some (.dir _) => .error "IsADirectoryError".toList
  | some _ => .ok (removeFS n fs)

/-- `make_symlink_current install_root target_dir`: if an entry named
`current` exists (a file or directory, via `current.exists()`) or is a
symlink — dangling included — (via `current.is_symlink()`), unlink it;
then create `current` as a symlink whose stored target text is the bare
version-directory name (a relative symlink inside the install root). -/
def make_symlink_current (fs : FS) (targetName : List Char) :
    Except (List Char) FS :=
  if (lookupFS fs "current".toList).isSome then
    match unlink "current".toList fs with
    | .error e => .error e
    | .ok fs1 => .ok (setFS "current".toList (.symlink targetName) fs1)
  else
    .ok (setFS "current".toList (.symlink targetName) fs)

/-- `shutil.rmtree` on an existing non-directory target raises. -/
def blocksRmtree : Option Entry → Bool
  | some (.file _) => true
  | some (.symlink _) => true
  | _ => false

/-- `extract_appimage appimage_path dest_dir`: run the AppImage with
`--appimage-extract` in a fresh temporary directory (`runOk` is whether the
subprocess exits successfully; `tree` is the `squashfs-root` contents it
produced, `none` when no such directory exists afterwards); on success
derive the version from the bundle filename, remove any prior
`dest_dir/<version>` tree (`shutil.rmtree`, which fails on a non-directory)
and copy the extracted tree there.  Returns the updated install root and
the version-directory name. -/
def extract_appimage (runOk : Bool) (appimageName : List Char)
    (tree : Option Tree) (fs : FS) : Except (List Char) (FS × List Char) :=
  if runOk = false then .error "CalledProcessError".toList
  else
    match tree with
    | none => .error "Extraction failed: squashfs-root not found.".toList
    | some t =>
        let version := derive_version appimageName
        if blocksRmtree (lookupFS fs version) then
          .error "NotADirectoryError".toList
        else .ok (setFS version (.dir t) fs, version)

/-- Result of one installer run: process exit code, final install-root
contents, the warnings printed to standard output for caught advisory
failures, and the messages printed to standard error. -/
structure Outcome where
  exitCode : Nat
  root : FS
  log : List (List Char)
  errLog : List (List Char)
deriving DecidableEq, Repr

/-- Warning printed when the caught `apt_install` step fails. -/
def aptLog (aptFails : Bool) : List (List Char) :=
  if aptFails then ["[!] apt install failed".toList] else []

/-- Warning printed when the caught `ensure_suid_sandbox` step fails. -/
def suidLog (suidFails : Bool) : List (List Char) :=
  if suidFails then ["[!] Failed to set SUID sandbox permissions.".toList] else []

/-- `main` of `install_cursor.py`, restricted to the state the claims are
about (the install root, the exit code and the error stream).
`bundleExists` models `Path(args.appimage).exists()`; `aptFails` and
`suidFails` model failures of the two advisory subprocess steps, whose
`CalledProcessError` is caught and only printed; `runOk`/`tree` feed the
extraction step.  A missing bundle exits with status 1 before any
filesystem step; an uncaught exception (extraction failure, symlink
replacement failure) terminates the interpreter with a traceback on stderr
and a nonzero status; otherwise the run ends with status 0. -/
def mainRun (bundleExists : Bool) (bundleName : List Char)
    (aptFails : Bool) (runOk : Bool) (tree : Option Tree) (suidFails : Bool)
    (root : FS) : Outcome :=
  if bundleExists = false then
    { exitCode := 1, root := root, log := [],
      errLog := ["ERROR: AppImage not found".toList] }
  else
    -- apt_install failure (CalledProcessError) is caught and printed
    match extract_appimage runOk bundleName tree root with
    | .error e =>
        { exitCode := 1, root := root, log := aptLog aptFails, errLog := [e] }
    | .ok (root1, version) =>
        -- ensure_suid_sandbox failure (CalledProcessError) is caught and printed
        match make_symlink_current root1 version with
        | .error e =>
            { exitCode := 1, root := root1,
              log := aptLog aptFails ++ suidLog suidFails, errLog := [e] }
        | .ok root2 =>
            { exitCode := 0, root := root2,
              log := aptLog aptFails ++ suidLog suidFails, errLog := [] }


/-! ### Lemmas about `matchAt` and `search` -/

theorem take_one_cons (c : Char) (l : List Char) : (c :: l).take 1 = [c] := rfl

theorem drop_one_cons (c : Char) (l : List Char) : (c :: l).drop 1 = l := rfl

/-- A list whose first element is `c` is `c` followed by its tail. -/
theorem eq_cons_of_take_one {l : List Char} {c : Char} (h : l.take 1 = [c]) :
    l = c :: l.drop 1 := by
  cases l with
  | nil => simp at h
  | cons a t =>
      rw [take_one_cons] at h
      simp only [List.cons.injEq] at h
      rw [h.1, drop_one_cons]

theorem ne_nil_of_not_isEmpty {l : List Char} (h : ¬ l.isEmpty = true) :
    l ≠ [] := by
  cases l with
  | nil => simp at h
  | cons a t => simp

theorem isEmpty_eq_false_of_ne_nil {l : List Char} (h : l ≠ []) :
    l.isEmpty = false := by
  cases l with
  | nil => exact absurd rfl h
  | cons a t => rfl

/-- Computing `matchAt` on text of the shape
`digits ++ "." ++ digits ++ "." ++ digits ++ rest`. -/
theorem matchAt_of_shape {d1 d2 d3 : List Char} (r : List Char)
    (h1 : d1 ≠ []) (h2 : d2 ≠ []) (h3 : d3 ≠ [])
    (a1 : ∀ c ∈ d1, c.isDigit = true) (a2 : ∀ c ∈ d2, c.isDigit = true)
    (a3 : ∀ c ∈ d3, c.isDigit = true) :
    matchAt (d1 ++ '.' :: (d2 ++ '.' :: (d3 ++ r)))
      = some (d1 ++ '.' :: (d2 ++ '.' :: (d3 ++ r.takeWhile Char.isDigit))) := by
  have hdot : Char.isDigit '.' = false := by decide
  have ht1 : (d1 ++ '.' :: (d2 ++ '.' :: (d3 ++ r))).takeWhile Char.isDigit = d1 := by
    rw [takeWhile_app_of_all _ a1]
    simp [List.takeWhile, hdot]
  have hd1 : (d1 ++ '.' :: (d2 ++ '.' :: (d3 ++ r))).dropWhile Char.isDigit
      = '.' :: (d2 ++ '.' :: (d3 ++ r)) := by
    rw [dropWhile_app_of_all _ a1]
    simp [List.dropWhile, hdot]
  have ht2 : (d2 ++ '.' :: (d3 ++ r)).takeWhile Char.isDigit = d2 := by
    rw [takeWhile_app_of_all _ a2]
    simp [List.takeWhile, hdot]
  have hd2 : (d2 ++ '.' :: (d3 ++ r)).dropWhile Char.isDigit = '.' :: (d3 ++ r) := by
    rw [dropWhile_app_of_all _ a2]
    simp [List.dropWhile, hdot]
  have ht3 : (d3 ++ r).takeWhile Char.isDigit = d3 ++ r.takeWhile Char.isDigit :=
    takeWhile_app_of_all _ a3
  simp only [matchAt, ht1, hd1, drop_one_cons, take_one_cons, ht2, hd2, ht3]
  simp [isEmpty_eq_false_of_ne_nil h1, isEmpty_eq_false_of_ne_nil h2,
    isEmpty_eq_false_of_ne_nil (fun hc : d3 ++ r.takeWhile Char.isDigit = [] =>
      h3 (List.append_eq_nil.mp hc).1)]

/-- Any successful `matchAt` decomposes the text and the matched string. -/
theorem shape_of_matchAt {l m : List Char} (h : matchAt l = some m) :
    ∃ d1 d2 d3 r, l = d1 ++ '.' :: (d2 ++ '.' :: (d3 ++ r))
      ∧ m = d1 ++ '.' :: (d2 ++ '.' :: d3)
      ∧ d1 ≠ [] ∧ d2 ≠ [] ∧ d3 ≠ []
      ∧ (∀ c ∈ d1, c.isDigit = true) ∧ (∀ c ∈ d2, c.isDigit = true)
      ∧ (∀ c ∈ d3, c.isDigit = true) := by
  simp only [matchAt] at h
  by_cases he1 : (l.takeWhile Char.isDigit).isEmpty = true
  · rw [if_pos he1] at h
    exact absurd h (by simp)
  · rw [if_neg he1] at h
    by_cases hq1 : (l.dropWhile Char.isDigit).take 1 = ['.']
    · rw [if_neg (fun hn => hn hq1)] at h
      by_cases he2 :
          (((l.dropWhile Char.isDigit).drop 1).takeWhile Char.isDigit).isEmpty = true
      · rw [if_pos he2] at h
        exact absurd h (by simp)
      · rw [if_neg he2] at h
        by_cases hq2 :
            (((l.dropWhile Char.isDigit).drop 1).dropWhile Char.isDigit).take 1 = ['.']
        · rw [if_neg (fun hn => hn hq2)] at h
          by_cases he3 :
              (((((l.dropWhile Char.isDigit).drop 1).dropWhile Char.isDigit).drop
                1).takeWhile Char.isDigit).isEmpty = true
          · rw [if_pos he3] at h
            exact absurd h (by simp)
          · rw [if_neg he3] at h
            simp only [Option.some.injEq] at h
            refine ⟨l.takeWhile Char.isDigit,
              ((l.dropWhile Char.isDigit).drop 1).takeWhile Char.isDigit,
              ((((l.dropWhile Char.isDigit).drop 1).dropWhile Char.isDigit).drop
                1).takeWhile Char.isDigit,
              ((((l.dropWhile Char.isDigit).drop 1).dropWhile Char.isDigit).drop
                1).dropWhile Char.isDigit,
              ?_, h.symm, ne_nil_of_not_isEmpty he1, ne_nil_of_not_isEmpty he2,
              ne_nil_of_not_isEmpty he3, all_of_takeWhile, all_of_takeWhile,
              all_of_takeWhile⟩
            conv_lhs => rw [← List.takeWhile_append_dropWhile
              (p := Char.isDigit) (l := l)]
            congr 1
            rw [eq_cons_of_take_one hq1]
            congr 1
            conv_lhs => rw [← List.takeWhile_append_dropWhile
              (p := Char.isDigit) (l := (l.dropWhile Char.isDigit).drop 1)]
            congr 1
            rw [eq_cons_of_take_one hq2]
            congr 1
            exact (List.takeWhile_append_dropWhile (p := Char.isDigit)
              (l := (((l.dropWhile Char.isDigit).drop 1).dropWhile
                Char.isDigit).drop 1)).symm
        · rw [if_pos hq2] at h
          exact absurd h (by simp)
    · rw [if_pos hq1] at h
      exact absurd h (by simp)

/-- A version string is nonempty digits, dot, digits, dot, digits. -/
theorem version_shape {v : List Char} (hv : isVersionText v) :
    ∃ d1 d2 d3, v = d1 ++ '.' :: (d2 ++ '.' :: d3)
      ∧ d1 ≠ [] ∧ d2 ≠ [] ∧ d3 ≠ []
      ∧ (∀ c ∈ d1, c.isDigit = true) ∧ (∀ c ∈ d2, c.isDigit = true)
      ∧ (∀ c ∈ d3, c.isDigit = true) := by
  obtain ⟨d1, d2, d3, r, hl, hm, h1, h2, h3, a1, a2, a3⟩ := shape_of_matchAt hv
  have hlen := congrArg List.length (hm.symm.trans hl)
  simp only [List.length_append, List.length_cons] at hlen
  have hr : r = [] := List.length_eq_zero.mp (by omega)
  exact ⟨d1, d2, d3, hm, h1, h2, h3, a1, a2, a3⟩

/-- A version string followed by anything still matches at its start. -/
theorem matchAt_isSome_of_version {v : List Char} (hv : isVersionText v)
    (t : List Char) : (matchAt (v ++ t)).isSome = true := by
  obtain ⟨d1, d2, d3, hm, h1, h2, h3, a1, a2, a3⟩ := version_shape hv
  have : v ++ t = d1 ++ '.' :: (d2 ++ '.' :: (d3 ++ t)) := by
    rw [hm]
    simp [List.append_assoc]
  rw [this, matchAt_of_shape t h1 h2 h3 a1 a2 a3]
  rfl

/-- A successful `search` result is a version string occurring in the text. -/
theorem search_infx {l : List Char} : ∀ {m}, search l = some m →
    isVersionText m ∧ m <:+: l := by
  induction l with
  | nil => intro m h; simp [search] at h
  | cons c rest ih =>
      intro m h
      cases hm : matchAt (c :: rest) with
      | some m0 =>
          simp only [search, hm] at h
          simp only [Option.some.injEq] at h
          subst h
          obtain ⟨d1, d2, d3, r, hl, hmm, h1, h2, h3, a1, a2, a3⟩ :=
            shape_of_matchAt hm
          constructor
          · show matchAt m0 = some m0
            rw [hmm]
            have := matchAt_of_shape ([] : List Char) h1 h2 h3 a1 a2 a3
            simpa using this
          · refine ⟨[], r, ?_⟩
            rw [hmm, hl]
            simp [List.append_assoc]
      | none =>
          simp only [search, hm] at h
          obtain ⟨hv, s, t, hst⟩ := ih h
          exact ⟨hv, c :: s, t, by simp [hst]⟩

/-- If a version string occurs in the text, `search` succeeds. -/
theorem search_isSome_of_infx {v : List Char} (hv : isVersionText v) :
    ∀ (s t : List Char), (search (s ++ (v ++ t))).isSome = true := by
  intro s
  induction s with
  | nil =>
      intro t
      obtain ⟨d1, d2, d3, hm, h1, h2, h3, a1, a2, a3⟩ := version_shape hv
      obtain ⟨c, vs, hc⟩ : ∃ c vs, v = c :: vs := by
        cases hd : d1 with
        | nil => exact absurd hd h1
        | cons a b => exact ⟨a, b ++ '.' :: (d2 ++ '.' :: d3), by simp [hm, hd]⟩
      have hsome := matchAt_isSome_of_version hv t
      rw [hc] at hsome ⊢
      simp only [List.nil_append, List.cons_append] at hsome ⊢
      cases hmm : matchAt (c :: (vs ++ t)) with
      | none => rw [hmm] at hsome; simp at hsome
      | some w => simp [search, hmm]
  | cons a s ih =>
      intro t
      simp only [List.cons_append]
      cases hm : matchAt (a :: (s ++ (v ++ t))) with
      | some w => simp [search, hm]
      | none => simp [search, hm, ih t]

/-- Claim C3: if the bundle filename contains a dotted three-part version
number, `derive_version` returns such a version substring of the filename,
verbatim; for a filename containing none, it returns the placeholder
`"unknown"`. -/
theorem c3_derive_version_matches (name : List Char) :
    (hasVersionText name →
      isVersionText (derive_version name) ∧ derive_version name <:+: name)
    ∧ (¬ hasVersionText name → derive_version name = "unknown".toList) := by
  constructor
  · rintro ⟨v, hv, s, t, hst⟩
    have hsome : (search (s ++ (v ++ t))).isSome = true :=
      search_isSome_of_infx hv s t
    rw [show s ++ (v ++ t) = s ++ v ++ t by simp [List.append_assoc], hst]
      at hsome
    cases hs : search name with
    | none => rw [hs] at hsome; simp at hsome
    | some m =>
        have hprop := search_infx hs
        simpa [derive_version, hs] using hprop
  · intro hn
    cases hs : search name with
    | some m =>
        obtain ⟨hv, hin⟩ := search_infx hs
        exact absurd ⟨m, hv, hin⟩ hn
    | none => simp [derive_version, hs]

/-- Witness for C3: the stock Cursor bundle filename. -/
theorem c3_derive_version_matches_witness :
    isVersionText (derive_version "Cursor-1.4.3-x86_64.AppImage".toList)
    ∧ derive_version "Cursor-1.4.3-x86_64.AppImage".toList
        <:+: "Cursor-1.4.3-x86_64.AppImage".toList :=
  (c3_derive_version_matches _).1 ⟨"1.4.3".toList, by decide, by decide⟩

/-- Claim C10: `search` returns the match at the leftmost start position
(every earlier start position fails to match), and on a four-component
version such as `2.1.0.5` the result is the first three components only —
a proper prefix of the full dotted number; with several version substrings
the earliest wins. -/
theorem c10_derive_version_leftmost :
    (∀ l m, search l = some m →
      ∃ i, matchAt (l.drop i) = some m ∧ ∀ j < i, matchAt (l.drop j) = none)
    ∧ derive_version "Cursor-2.1.0.5-x86_64.AppImage".toList = "2.1.0".toList
    ∧ derive_version "App-1.2.3-and-7.8.9.AppImage".toList = "1.2.3".toList := by
  refine ⟨?_, by decide, by decide⟩
  intro l
  induction l with
  | nil => intro m h; simp [search] at h
  | cons c rest ih =>
      intro m h
      cases hm : matchAt (c :: rest) with
      | some m0 =>
          simp only [search, hm, Option.some.injEq] at h
          subst h
          exact ⟨0, by simpa using hm, by omega⟩
      | none =>
          simp only [search, hm] at h
          obtain ⟨i, hi, hj⟩ := ih m h
          refine ⟨i + 1, by simpa using hi, ?_⟩
          intro j hj2
          cases j with
          | zero => simpa using hm
          | succ j2 =>
              have := hj j2 (by omega)
              simpa using this

/-- Witness for C10 at a concrete filename tail. -/
theorem c10_derive_version_leftmost_witness :
    ∃ i, matchAt (("b7.8.9".toList).drop i) = some "7.8.9".toList
      ∧ ∀ j < i, matchAt (("b7.8.9".toList).drop j) = none :=
  c10_derive_version_leftmost.1 "b7.8.9".toList "7.8.9".toList (by decide)

/-! ### Installer: claim-level lemmas -/

/-- `derive_version` is the placeholder or starts with a digit. -/
theorem derive_version_head (n : List Char) :
    derive_version n = "unknown".toList
    ∨ ∃ c t, derive_version n = c :: t ∧ c.isDigit = true := by
  unfold derive_version
  cases hs : search n with
  | none => exact Or.inl rfl
  | some m =>
      obtain ⟨hv, hin⟩ := search_infx hs
      obtain ⟨d1, d2, d3, hm, h1, h2, h3, a1, a2, a3⟩ := version_shape hv
      cases hd : d1 with
      | nil => exact absurd hd h1
      | cons a b =>
          refine Or.inr ⟨a, b ++ '.' :: (d2 ++ '.' :: d3), ?_, ?_⟩
          · rw [hm, hd]
            simp
          · exact a1 a (by simp [hd])

/-- A version-directory name is never the reserved name `current`. -/
theorem derive_version_ne_current (n : List Char) :
    derive_version n ≠ "current".toList := by
  rcases derive_version_head n with h | ⟨c, t, h, hd⟩
  · rw [h]
    decide
  · rw [h]
    intro hc
    have h3 : c = 'c' := by
      have := congrArg List.head? hc
      simpa using this
    rw [h3] at hd
    exact absurd hd (by decide)

/-- A successful symlink step points `current` at the version name and
leaves every other entry unchanged. -/
theorem make_symlink_ok {fs fs2 : FS} {v : List Char}
    (h : make_symlink_current fs v = .ok fs2) :
    lookupFS fs2 "current".toList = some (.symlink v)
    ∧ ∀ k, k ≠ "current".toList → lookupFS fs2 k = lookupFS fs k := by
  unfold make_symlink_current at h
  by_cases hc : (lookupFS fs "current".toList).isSome = true
  · rw [if_pos hc] at h
    unfold unlink at h
    cases hl : lookupFS fs "current".toList with
    | none => rw [hl] at hc; simp at hc
    | some e =>
        rw [hl] at h
        cases e with
        | dir t => simp at h
        | file c =>
            simp at h
            subst h
            refine ⟨lookupFS_setFS_self _ _ _, fun k hk => ?_⟩
            exact (lookupFS_setFS_ne _ _ hk).trans (lookupFS_removeFS_ne _ hk)
        | symlink tg =>
            simp at h
            subst h
            refine ⟨lookupFS_setFS_self _ _ _, fun k hk => ?_⟩
            exact (lookupFS_setFS_ne _ _ hk).trans (lookupFS_removeFS_ne _ hk)
  · rw [if_neg hc] at h
    simp at h
    subst h
    refine ⟨lookupFS_setFS_self _ _ _, fun k hk => ?_⟩
    exact lookupFS_setFS_ne _ _ hk

/-- A successful extraction step: the subprocess ran, a tree was produced,
and the install root gained the version directory. -/
theorem extract_ok {runOk : Bool} {n : List Char} {tree : Option Tree}
    {fs fs2 : FS} {v : List Char}
    (h : extract_appimage runOk n tree fs = .ok (fs2, v)) :
    runOk = true ∧ ∃ t, tree = some t ∧ v = derive_version n
      ∧ fs2 = setFS (derive_version n) (.dir t) fs := by
  unfold extract_appimage at h
  cases runOk with
  | false => simp at h
  | true =>
      rw [if_neg (by simp)] at h
      cases tree with
      | none => simp at h
      | some t =>
          by_cases hb : blocksRmtree (lookupFS fs (derive_version n)) = true
          · simp [hb] at h
          · simp only [eq_self_iff_true] at h
            rw [if_neg hb] at h
            simp at h
            exact ⟨rfl, t, rfl, h.2.symm, h.1.symm⟩

/-- Every successful run installs the version directory, points `current`
at it, and leaves every other entry of the install root unchanged. -/
theorem mainRun_success_shape {bundleName : List Char} {aptFails runOk : Bool}
    {tree : Option Tree} {suidFails : Bool} {root : FS}
    (h : (mainRun true bundleName aptFails runOk tree suidFails root).exitCode = 0) :
    ∃ t, tree = some t
      ∧ lookupFS (mainRun true bundleName aptFails runOk tree suidFails root).root
          "current".toList = some (.symlink (derive_version bundleName))
      ∧ lookupFS (mainRun true bundleName aptFails runOk tree suidFails root).root
          (derive_version bundleName) = some (.dir t)
      ∧ ∀ k, k ≠ "current".toList → k ≠ derive_version bundleName →
          lookupFS (mainRun true bundleName aptFails runOk tree suidFails root).root k
            = lookupFS root k := by
  unfold mainRun at h ⊢
  rw [if_neg (by simp)] at h ⊢
  cases hex : extract_appimage runOk bundleName tree root with
  | error e => rw [hex] at h; simp at h
  | ok p =>
      obtain ⟨fs1, v⟩ := p
      rw [hex] at h
      simp only [] at h ⊢
      cases hmk : make_symlink_current fs1 v with
      | error e => rw [hmk] at h; simp at h
      | ok fs2 =>
          rw [hmk] at h
          simp only [] at h ⊢
          obtain ⟨hrun, t, htree, hv, hfs1⟩ := extract_ok hex
          obtain ⟨hcur, hframe⟩ := make_symlink_ok hmk
          subst hv
          subst hfs1
          refine ⟨t, htree, ?_, ?_, ?_⟩
          · simpa using hcur
          · show lookupFS fs2 (derive_version bundleName) = some (.dir t)
            rw [hframe _ (derive_version_ne_current bundleName)]
            exact lookupFS_setFS_self _ _ _
          · intro k hk1 hk2
            show lookupFS fs2 k = lookupFS root k
            rw [hframe _ hk1]
            exact lookupFS_setFS_ne _ _ hk2

/-- Claim C2: after every successful installer run, the `current` entry of
the install root is a relative symlink whose stored target is exactly the
name of the just-installed version directory, and that version directory
exists in the install root (holding the extracted tree). -/
theorem c2_current_points_to_installed_version (bundleName : List Char)
    (aptFails runOk : Bool) (tree : Option Tree) (suidFails : Bool) (root : FS)
    (h : (mainRun true bundleName aptFails runOk tree suidFails root).exitCode = 0) :
    lookupFS (mainRun true bundleName aptFails runOk tree suidFails root).root
        "current".toList = some (.symlink (derive_version bundleName))
    ∧ ∃ t, tree = some t
        ∧ lookupFS (mainRun true bundleName aptFails runOk tree suidFails root).root
            (derive_version bundleName) = some (.dir t) := by
  obtain ⟨t, htree, hcur, hdir, _⟩ := mainRun_success_shape h
  exact ⟨hcur, t, htree, hdir⟩

/-- Witness for C2: a concrete successful run from an empty install root. -/
theorem c2_current_points_to_installed_version_witness :
    lookupFS (mainRun true "Cursor-1.4.3-x86_64.AppImage".toList false true
        (some [("AppRun".toList, "x".toList)]) false []).root
      "current".toList
      = some (.symlink (derive_version "Cursor-1.4.3-x86_64.AppImage".toList)) :=
  (c2_current_points_to_installed_version "Cursor-1.4.3-x86_64.AppImage".toList
    false true (some [("AppRun".toList, "x".toList)]) false [] (by decide)).1

/-- Claim C7: when the extraction subprocess completes but produces no
`squashfs-root` directory, `extract_appimage` fails with the distinct
fatal message `Extraction failed: squashfs-root not found.`, and the run
leaves the install root exactly as it was (no version directory is created
or replaced), terminating with a nonzero status. -/
theorem c7_extraction_failure_distinct_error (bundleName : List Char)
    (aptFails suidFails : Bool) (root : FS) :
    extract_appimage true bundleName none root
      = .error "Extraction failed: squashfs-root not found.".toList
    ∧ (mainRun true bundleName aptFails true none suidFails root).root = root
    ∧ (mainRun true bundleName aptFails true none suidFails root).exitCode = 1 := by
  have hex : extract_appimage true bundleName none root
      = .error "Extraction failed: squashfs-root not found.".toList := by
    unfold extract_appimage
    rw [if_neg (by simp)]
  refine ⟨hex, ?_, ?_⟩ <;>
    · unfold mainRun
      rw [if_neg (by simp), hex]

/-- Claim C9: `make_symlink_current` removes and replaces a pre-existing
`current` entry exactly when it is a regular file or a symlink (dangling
included, via `current.is_symlink()`); when a real directory named
`current` exists, `Path.unlink` raises `IsADirectoryError`, the error is
uncaught, and the repoint does not occur. -/
theorem c9_make_symlink_replaces_only_nondir (fs : FS) (v : List Char) :
    (∀ e, lookupFS fs "current".toList = some e →
      ((∃ c, e = .file c) ∨ (∃ tg, e = .symlink tg)) →
      make_symlink_current fs v
        = .ok (setFS "current".toList (.symlink v)
            (removeFS "current".toList fs)))
    ∧ (∀ d, lookupFS fs "current".toList = some (.dir d) →
      make_symlink_current fs v = .error "IsADirectoryError".toList) := by
  constructor
  · rintro e hl (⟨c, rfl⟩ | ⟨tg, rfl⟩) <;>
    · unfold make_symlink_current unlink
      rw [hl]
      rfl
  · intro d hl
    unfold make_symlink_current unlink
    rw [hl]
    rfl

/-- Witness for C9: a real directory named `current` blocks the repoint. -/
theorem c9_make_symlink_replaces_only_nondir_witness :
    make_symlink_current [("current".toList, Entry.dir [])] "1.0.0".toList
      = .error "IsADirectoryError".toList :=
  (c9_make_symlink_replaces_only_nondir _ _).2 [] (by decide)

/-- Claim C6 counterexample: a run whose bundle file does exist still
terminates with a nonzero exit status when extraction produces no
`squashfs-root`, so a missing source file is not the only fatal condition
reflected in the exit code. -/
theorem c6_counterexample :
    (mainRun true "Cursor.AppImage".toList false true none false []).exitCode = 1
    ∧ (mainRun true "Cursor.AppImage".toList false true none false []).errLog
      = ["Extraction failed: squashfs-root not found.".toList] := by
  constructor <;> rfl

/-- Claim C6 (amended): a missing bundle file makes the installer exit
immediately with status 1 and a message on the error stream, with the
install root untouched; advisory-step failures (dependency install,
sandbox permission fix) never change the exit status or the install root.
Other fatal conditions (extraction failure, symlink replacement failure)
also produce a nonzero exit status. -/
theorem c6_missing_bundle_fatal (bundleName : List Char)
    (aptFails runOk : Bool) (tree : Option Tree) (suidFails : Bool) (root : FS) :
    mainRun false bundleName aptFails runOk tree suidFails root
      = { exitCode := 1, root := root, log := [],
          errLog := ["ERROR: AppImage not found".toList] }
    ∧ (mainRun true bundleName aptFails runOk tree suidFails root).exitCode
      = (mainRun true bundleName false runOk tree false root).exitCode
    ∧ (mainRun true bundleName aptFails runOk tree suidFails root).root
      = (mainRun true bundleName false runOk tree false root).root := by
  refine ⟨rfl, ?_, ?_⟩ <;>
  · unfold mainRun
    cases hex : extract_appimage runOk bundleName tree root with
    | error e => simp [hex]
    | ok p =>
        obtain ⟨fs1, v⟩ := p
        cases hmk : make_symlink_current fs1 v with
        | error e => simp [hex, hmk]
        | ok fs2 => simp [hex, hmk]

/-- Initial install root for the C5 counterexample: a directory named
`9.9.9` (say, from an earlier manual install) already exists. -/
def c5Root0 : FS := [("9.9.9".toList, Entry.dir [("old".toList, "o".toList)])]

/-- First run of the C5 counterexample: installs version `1.0.0`. -/
def c5Run1 : Outcome :=
  mainRun true "App-1.0.0.AppImage".toList false true
    (some [("AppRun".toList, "run".toList)]) false c5Root0

/-- Second run of the C5 counterexample: installs version `9.9.9` on top of
the first run's install root. -/
def c5Run2 : Outcome :=
  mainRun true "App-9.9.9.AppImage".toList false true
    (some [("AppRun".toList, "new".toList)]) false c5Run1.root

/-- Claim C5 counterexample: both runs succeed and the two bundles encode
different versions, yet the second run also replaces the pre-existing
non-`current` entry `9.9.9` of the install root (its content changes), so
`current` is not the only pre-existing entry modified by the second run. -/
theorem c5_counterexample :
    c5Run1.exitCode = 0 ∧ c5Run2.exitCode = 0
    ∧ derive_version "App-1.0.0.AppImage".toList
        ≠ derive_version "App-9.9.9.AppImage".toList
    ∧ "9.9.9".toList ≠ "current".toList
    ∧ lookupFS c5Run1.root "9.9.9".toList
        = some (Entry.dir [("old".toList, "o".toList)])
    ∧ lookupFS c5Run2.root "9.9.9".toList
        = some (Entry.dir [("AppRun".toList, "new".toList)])
    ∧ lookupFS c5Run2.root "9.9.9".toList ≠ lookupFS c5Run1.root "9.9.9".toList := by
  refine ⟨rfl, rfl, by decide, by decide, rfl, rfl, by decide⟩

/-- Claim C5 (amended): for two successful installer runs against the same
install root with bundles encoding different versions, provided the
install root after the first run holds no entry named after the second
version, the second run creates the second version directory, repoints
`current` to it, leaves the first version's directory and contents
unchanged, and modifies no other pre-existing entry of the install root.
(If an entry with the second version's name already exists, the installer
replaces it, as the counterexample records.) -/
theorem c5_second_run_frame (n1 n2 : List Char) (root : FS)
    (apt1 apt2 extOk1 extOk2 suid1 suid2 : Bool) (tr1 tr2 : Option Tree)
    (hne : derive_version n2 ≠ derive_version n1)
    (h1 : (mainRun true n1 apt1 extOk1 tr1 suid1 root).exitCode = 0)
    (h2 : (mainRun true n2 apt2 extOk2 tr2 suid2
        (mainRun true n1 apt1 extOk1 tr1 suid1 root).root).exitCode = 0)
    (hfresh : lookupFS (mainRun true n1 apt1 extOk1 tr1 suid1 root).root
        (derive_version n2) = none) :
    ∃ t1 t2, tr1 = some t1 ∧ tr2 = some t2
      ∧ lookupFS (mainRun true n2 apt2 extOk2 tr2 suid2
            (mainRun true n1 apt1 extOk1 tr1 suid1 root).root).root
          (derive_version n2) = some (.dir t2)
      ∧ lookupFS (mainRun true n2 apt2 extOk2 tr2 suid2
            (mainRun true n1 apt1 extOk1 tr1 suid1 root).root).root
          "current".toList = some (.symlink (derive_version n2))
      ∧ lookupFS (mainRun true n2 apt2 extOk2 tr2 suid2
            (mainRun true n1 apt1 extOk1 tr1 suid1 root).root).root
          (derive_version n1) = some (.dir t1)
      ∧ ∀ k, k ≠ "current".toList →
          lookupFS (mainRun true n1 apt1 extOk1 tr1 suid1 root).root k ≠ none →
          lookupFS (mainRun true n2 apt2 extOk2 tr2 suid2
              (mainRun true n1 apt1 extOk1 tr1 suid1 root).root).root k
            = lookupFS (mainRun true n1 apt1 extOk1 tr1 suid1 root).root k := by
  obtain ⟨t1, htr1, hcur1, hdir1, _⟩ := mainRun_success_shape h1
  obtain ⟨t2, htr2, hcur2, hdir2, hframe2⟩ := mainRun_success_shape h2
  refine ⟨t1, t2, htr1, htr2, hdir2, hcur2, ?_, ?_⟩
  · rw [hframe2 _ (derive_version_ne_current n1) (fun hc => hne hc.symm)]
    exact hdir1
  · intro k hk hpresent
    by_cases hkv : k = derive_version n2
    · rw [hkv] at hpresent
      exact absurd hfresh hpresent
    · exact hframe2 _ hk hkv

/-- Witness for the amended C5 at a concrete pair of runs. -/
theorem c5_second_run_frame_witness :
    lookupFS (mainRun true "App-2.0.0.AppImage".toList false true
        (some [("AppRun".toList, "b".toList)]) false
        (mainRun true "App-1.0.0.AppImage".toList false true
          (some [("AppRun".toList, "a".toList)]) false []).root).root
      "current".toList
      = some (Entry.symlink (derive_version "App-2.0.0.AppImage".toList)) := by
  obtain ⟨t1, t2, h1, h2, h3, hcur, h5, h6⟩ :=
    c5_second_run_frame "App-1.0.0.AppImage".toList "App-2.0.0.AppImage".toList
      [] false false true true false false
      (some [("AppRun".toList, "a".toList)])
      (some [("AppRun".toList, "b".toList)])
      (by decide) (by decide) (by decide) (by decide)
  exact hcur
